import Mathlib

/-!
# ThoughtCloud — Handwritten Note Paging & Canvas-State Engine

A shallow embedding in Lean 4 of the multi-page handwritten-note engine of
the ThoughtCloud note app (`HandwrittenNote` component).  The
page data lives in JSON strings produced and consumed by the JavaScript
runtime functions `JSON.parse` / `JSON.stringify`, so we first embed a JSON value
type together with an executable serializer and an executable
recursive-descent reader, and prove the round-trip law
`parseJson (stringify v) = some v` that the engine proofs rely on.

Modelling notes for the JSON layer (it models the JavaScript runtime's
JSON primitives, which are not part of the repository):
* numbers are modelled as integers (the drawing data only carries integral
  coordinates and dimensions and no arithmetic is performed on them);
  fractional and exponent forms are not modelled;
* strings support the escapes `\" \\ \/ \n \t \r \b \f`; `\uXXXX` escapes
  are not modelled;
* an object is a list of key/value pairs in textual order; duplicate keys
  (which `JSON.parse` collapses) are kept as written, and key lookup takes
  the first occurrence — no drawing data produced by the app has duplicate
  keys.
-/

set_option maxHeartbeats 1000000

namespace ThoughtCloud

/-- JSON values, as produced by the runtime function `JSON.parse`. -/
inductive Json where
  | null
  | bool (b : Bool)
  | num (n : Int)
  | str (s : String)
  | arr (elems : List Json)
  | obj (members : List (String × Json))

/-- JSON whitespace characters. -/
def isWs (c : Char) : Bool := c = ' ' || c = '\t' || c = '\n' || c = '\r'

/-- Decimal digit test. -/
def isDigit (c : Char) : Bool := 48 ≤ c.toNat && c.toNat ≤ 57

/-- The character for a decimal digit value. -/
def digitChar (n : Nat) : Char := Char.ofNat (48 + n)

/-- Value of a list of decimal digit characters, most significant first. -/
def digitsToNat (ds : List Char) : Nat :=
  ds.foldl (fun a c => 10 * a + (c.toNat - 48)) 0

/-- Fueled digit-emission loop (fuel-structural so the kernel can reduce it). -/
def natDigitsGo : Nat → Nat → List Char → List Char
  | 0, _, acc => acc
  | fuel + 1, n, acc =>
    if n = 0 then acc else natDigitsGo fuel (n / 10) (digitChar (n % 10) :: acc)

/-- Decimal digits of a natural number, most significant first. -/
def natDigits (n : Nat) : List Char := if n = 0 then ['0'] else natDigitsGo n n []

/-- Serialized form of a JSON number. -/
def serNum (n : Int) : List Char :=
  if n < 0 then '-' :: natDigits (-n).toNat else natDigits n.toNat

/-- Escaping of one character inside a JSON string literal. -/
def escapeChar (c : Char) : List Char :=
  if c = '"' then ['\\', '"']
  else if c = '\\' then ['\\', '\\']
  else if c = '\n' then ['\\', 'n']
  else if c = '\t' then ['\\', 't']
  else if c = '\r' then ['\\', 'r']
  else [c]

/-- Body of a serialized JSON string literal (without the quotes). -/
def serStrBody (l : List Char) : List Char :=
  l.foldr (fun c acc => escapeChar c ++ acc) []

mutual

/-- Serializer for JSON values: the model of `JSON.stringify`. -/
def ser : Json → List Char
  | .null => ['n', 'u', 'l', 'l']
  | .bool b => if b then ['t', 'r', 'u', 'e'] else ['f', 'a', 'l', 's', 'e']
  | .num n => serNum n
  | .str s => '"' :: (serStrBody s.data ++ ['"'])
  | .arr xs => '[' :: (serElems xs ++ [']'])
  | .obj kvs => '{' :: (serMembers kvs ++ ['}'])

/-- Comma-separated serialization of array elements. -/
def serElems : List Json → List Char
  | [] => []
  | [x] => ser x
  | x :: y :: xs => ser x ++ ',' :: serElems (y :: xs)

/-- Comma-separated serialization of object members. -/
def serMembers : List (String × Json) → List Char
  | [] => []
  | [(k, v)] => serMember k v
  | (k, v) :: m :: kvs => serMember k v ++ ',' :: serMembers (m :: kvs)

/-- Serialization of one object member. -/
def serMember (k : String) (v : Json) : List Char :=
  '"' :: (serStrBody k.data ++ '"' :: ':' :: ser v)

end

/-- The model of `JSON.stringify`. -/
def stringify (v : Json) : String := ⟨ser v⟩

/-- Drop leading JSON whitespace. -/
def skipWs : List Char → List Char
  | [] => []
  | c :: cs => if isWs c then skipWs cs else c :: cs

/-- Meaning of one escape character after a backslash. -/
def unescape (c : Char) : Option Char :=
  if c = '"' then some '"'
  else if c = '\\' then some '\\'
  else if c = '/' then some '/'
  else if c = 'n' then some '\n'
  else if c = 't' then some '\t'
  else if c = 'r' then some '\r'
  else if c = 'b' then some (Char.ofNat 8)
  else if c = 'f' then some (Char.ofNat 12)
  else none

/-- Read a JSON string body up to the closing quote; returns the decoded
characters and the input after the closing quote. -/
def parseStringBody : List Char → Option (List Char × List Char)
  | [] => none
  | c :: cs =>
    if c = '"' then some ([], cs)
    else if c = '\\' then
      match cs with
      | [] => none
      | e :: cs' =>
        match unescape e with
        | none => none
        | some d =>
          match parseStringBody cs' with
          | none => none
          | some (sb, rest) => some (d :: sb, rest)
    else
      match parseStringBody cs with
      | none => none
      | some (sb, rest) => some (c :: sb, rest)

/-- Split off the longest prefix of decimal digits. -/
def spanDigits : List Char → List Char × List Char
  | [] => ([], [])
  | c :: cs =>
    if isDigit c then
      let p := spanDigits cs
      (c :: p.1, p.2)
    else ([], c :: cs)

/-- JSON forbids a leading zero followed by more digits. -/
def leadingZeroBad : List Char → Bool
  | c :: _ :: _ => c = '0'
  | _ => false

/-- Read an unsigned JSON number. -/
def parseNatNum (cs : List Char) : Option (Nat × List Char) :=
  let p := spanDigits cs
  if p.1 = [] then none
  else if leadingZeroBad p.1 then none
  else some (digitsToNat p.1, p.2)

/-- Read a JSON number with optional sign. -/
def parseNum : List Char → Option (Int × List Char)
  | [] => none
  | c :: cs =>
    if c = '-' then
      match parseNatNum cs with
      | none => none
      | some (n, rest) => some (-(n : Int), rest)
    else
      match parseNatNum (c :: cs) with
      | none => none
      | some (n, rest) => some ((n : Int), rest)

mutual

/-- Fueled reader for one JSON value: together with `parseJson` below, the
model of `JSON.parse`.  Returns the value and the unconsumed input. -/
def parseVal : Nat → List Char → Option (Json × List Char)
  | 0, _ => none
  | fuel + 1, cs =>
    match skipWs cs with
    | [] => none
    | c :: r =>
      if c = 'n' then
        match r with
        | 'u' :: 'l' :: 'l' :: r' => some (.null, r')
        | _ => none
      else if c = 't' then
        match r with
        | 'r' :: 'u' :: 'e' :: r' => some (.bool true, r')
        | _ => none
      else if c = 'f' then
        match r with
        | 'a' :: 'l' :: 's' :: 'e' :: r' => some (.bool false, r')
        | _ => none
      else if c = '"' then
        match parseStringBody r with
        | none => none
        | some (sb, rest) => some (.str ⟨sb⟩, rest)
      else if c = '[' then
        match skipWs r with
        | [] => none
        | d :: r' =>
          if d = ']' then some (.arr [], r')
          else
            match parseElems fuel r with
            | none => none
            | some (xs, rest) => some (.arr xs, rest)
      else if c = '{' then
        match skipWs r with
        | [] => none
        | d :: r' =>
          if d = '}' then some (.obj [], r')
          else
            match parseMembers fuel r with
            | none => none
            | some (kvs, rest) => some (.obj kvs, rest)
      else if c = '-' || isDigit c then
        match parseNum (c :: r) with
        | none => none
        | some (n, rest) => some (.num n, rest)
      else none

/-- Fueled reader for a non-empty comma-separated element list up to `]`. -/
def parseElems : Nat → List Char → Option (List Json × List Char)
  | 0, _ => none
  | fuel + 1, cs =>
    match parseVal fuel cs with
    | none => none
    | some (v, r) =>
      match skipWs r with
      | ',' :: r' =>
        match parseElems fuel r' with
        | none => none
        | some (xs, rest) => some (v :: xs, rest)
      | ']' :: r' => some ([v], r')
      | _ => none

/-- Fueled reader for a non-empty comma-separated member list up to the
closing brace. -/
def parseMembers : Nat → List Char → Option (List (String × Json) × List Char)
  | 0, _ => none
  | fuel + 1, cs =>
    match skipWs cs with
    | '"' :: r =>
      match parseStringBody r with
      | none => none
      | some (kb, r1) =>
        match skipWs r1 with
        | ':' :: r2 =>
          match parseVal fuel r2 with
          | none => none
          | some (v, r3) =>
            match skipWs r3 with
            | ',' :: r4 =>
              match parseMembers fuel r4 with
              | none => none
              | some (kvs, rest) => some ((⟨kb⟩, v) :: kvs, rest)
            | '}' :: r4 => some ([(⟨kb⟩, v)], r4)
            | _ => none
        | _ => none
    | _ => none

end

/-- The model of `JSON.parse`: read one value and require that only
whitespace remains. -/
def parseJson (s : String) : Option Json :=
  match parseVal (s.data.length + 1) s.data with
  | none => none
  | some (v, rest) => if skipWs rest = [] then some v else none

/-- True when the input does not begin with a decimal digit (so a greedy
number read stopping here is correct). -/
def noDigitHead : List Char → Bool
  | [] => true
  | c :: _ => !(isDigit c)


/-! ## The drawing-data layer (`optimizeCanvasData` and helpers) -/

/-- First-occurrence lookup of an object key; models JavaScript property
access on a parsed object (app drawing data has no duplicate keys). -/
def lookupKey : List (String × Json) → String → Option Json
  | [], _ => none
  | (k', v') :: kvs, k => if k' = k then some v' else lookupKey kvs k

/-- Model of the object-spread update used by the source
(`...parsed` with `lines` rebound): replace the value at the key, keeping
its position; append if the key is absent. -/
def setKey : List (String × Json) → String → Json → List (String × Json)
  | [], k, v => [(k, v)]
  | (k', v') :: kvs, k, v =>
    if k' = k then (k, v) :: kvs else (k', v') :: setKey kvs k v

/-- The filter of `optimizeCanvasData` (part_006 lines 132-134): keep a
stroke only when it is an object whose `points` field is a non-empty
array. -/
def keepLine : Json → Bool
  | .obj lkvs =>
    match lookupKey lkvs "points" with
    | some (.arr ps) => decide (0 < ps.length)
    | _ => false
  | _ => false

/-- The shape test of the source (part_006 line 130 and line 470): a JSON
object whose `lines` field is an array. -/
def hasLinesArray : Json → Bool
  | .obj kvs =>
    match lookupKey kvs "lines" with
    | some (.arr _) => true
    | _ => false
  | _ => false

/-- Model of `!data || data.trim() === ''`: the string is empty or
whitespace-only. -/
def blank (s : String) : Bool := s.data.all isWs

/-- The canonical empty-buffer serialization
`JSON.stringify(\x7blines: [], width, height\x7d)` at given canvas dimensions. -/
def emptyBuf (dims : Int × Int) : String :=
  stringify (.obj [("lines", .arr []), ("width", .num dims.1), ("height", .num dims.2)])

/-- `optimizeCanvasData` (part_006 lines 123-146): prune empty strokes from
a stroke buffer; malformed input degrades to the empty buffer. -/
def optimizeCanvasData (dims : Int × Int) (data : String) : String :=
  if blank data then emptyBuf dims
  else
    match parseJson data with
    | some (.obj kvs) =>
      match lookupKey kvs "lines" with
      | some (.arr ls) =>
        stringify (.obj (setKey kvs "lines" (.arr (ls.filter keepLine))))
      | _ => emptyBuf dims
    | _ => emptyBuf dims


/-! ## The page engine

State and operations of the `HandwrittenNote` component (part_006),
sequentialized: React state updates become record updates, and the
page-load `useEffect` (lines 428-505) becomes the explicit `bindEffect`
step.  The live drawing surface (react-canvas-draw via `canvasRef`) is
modelled by `Canvas`: `data` is what `getSaveData()` returns, and
`events` logs every `clear()` / `loadSaveData()` call so that redundant
reloads are observable.  The model assumes a mounted canvas
(`canvasRef.current` non-null), as in any interactive session. -/

/-- One call onto the live drawing surface. -/
inductive CEvent where
  | clear
  | load (data : String)

/-- The live drawing surface. `clear()` resets the save data to the empty
buffer at the canvas dimensions; `loadSaveData(d, true)` replaces it. -/
structure Canvas where
  data : String
  events : List CEvent

def Canvas.clearOp (dims : Int × Int) (c : Canvas) : Canvas :=
  ⟨emptyBuf dims, c.events ++ [CEvent.clear]⟩

def Canvas.loadOp (c : Canvas) (s : String) : Canvas :=
  ⟨s, c.events ++ [CEvent.load s]⟩

/-- The component state of `HandwrittenNote` that the page engine touches:
`pages`, `currentPage`, the canvas ref, `lastLoadedData`, `error`. -/
structure EngineState where
  pages : List String
  currentPage : Nat
  canvas : Canvas
  lastLoadedData : String
  error : Option String

/-- `saveCurrentPageData` (part_006 lines 149-160): flush the optimized
live buffer into the page store at the current index. -/
def saveCurrentPageData (dims : Int × Int) (s : EngineState) : EngineState :=
  { s with pages := s.pages.set s.currentPage (optimizeCanvasData dims s.canvas.data) }

/-- `addNewPage` (part_006 lines 163-186): refuse at 50 pages with a
capacity error; otherwise flush the current page, append an empty page,
advance `currentPage` by one and mark `lastLoadedData` as `EMPTY_PAGE`. -/
def addNewPage (dims : Int × Int) (s : EngineState) : EngineState :=
  if 50 ≤ s.pages.length then
    { s with error := some "Maximum 50 pages allowed per note" }
  else
    { s with
      pages := (s.pages.set s.currentPage (optimizeCanvasData dims s.canvas.data))
        ++ [emptyBuf dims],
      currentPage := s.currentPage + 1,
      lastLoadedData := "EMPTY_PAGE" }

/-- `goToPage` (part_006 lines 188-228): no-op on the current index or out
of bounds; otherwise flush the optimized live buffer into the old index,
clear the canvas, switch the index, and force a reload via the
`PAGE_CHANGED` marker. -/
def goToPage (dims : Int × Int) (i : Nat) (s : EngineState) : EngineState :=
  if i = s.currentPage ∨ s.pages.length ≤ i then s
  else
    { s with
      pages := s.pages.set s.currentPage (optimizeCanvasData dims s.canvas.data),
      canvas := s.canvas.clearOp dims,
      currentPage := i,
      lastLoadedData := "PAGE_CHANGED" }

/-- `deleteCurrentPage` (part_006 lines 230-240): refuse when a single
page remains; otherwise remove the current page and clamp the index. -/
def deleteCurrentPage (s : EngineState) : EngineState :=
  if s.pages.length ≤ 1 then s
  else
    let newPages := s.pages.eraseIdx s.currentPage
    { s with
      pages := newPages,
      currentPage := if newPages.length ≤ s.currentPage then newPages.length - 1
        else s.currentPage,
      lastLoadedData := "PAGE_DELETED" }

/-- The body of the page-load `useEffect` (part_006 lines 428-505) as a
function of the data of the active page, the canvas, and `lastLoadedData`:
the Canvas Binding of the specification. -/
def bindActivePage (dims : Int × Int) (d : String) (c : Canvas) (last : String) :
    Canvas × String :=
  if d = last then (c, last)
  else if ¬ blank d = true ∧ d ≠ "\"\"" ∧ d ≠ "[]" then
    match parseJson d with
    | some v =>
      if hasLinesArray v then ((c.clearOp dims).loadOp d, d)
      else (c.clearOp dims, "EMPTY_PAGE")
    | none => (c.clearOp dims, "EMPTY_PAGE")
  else (c.clearOp dims, "EMPTY_PAGE")

/-- The page-load `useEffect` applied to the whole engine state (guards of
part_006 lines 429-439 included). -/
def bindEffect (dims : Int × Int) (s : EngineState) : EngineState :=
  if s.pages = [] then s
  else if s.pages.length ≤ s.currentPage then s
  else
    let r := bindActivePage dims (s.pages.getD s.currentPage "") s.canvas
      s.lastLoadedData
    { s with canvas := r.1, lastLoadedData := r.2 }

/-- A parsed array element taken over as a page entry.  `loadNote` stores
the parsed elements directly (`setPages(pagesData)`); they are strings for
every value the app itself saves.  A non-string element (impossible for
app-written data) is re-serialized so that the modelled page store can stay
a list of strings; this preserves the element count and every string
element exactly. -/
def asPageString : Json → String
  | .str s => s
  | v => stringify v

/-- The fresh canvas mounted with the note view. -/
def initialCanvas (dims : Int × Int) : Canvas := ⟨emptyBuf dims, []⟩

/-- The `drawingData` handling of `loadNote` (part_006 lines 349-382):
no data gives one empty page; a parsed non-empty array gives the pages;
any other successful parse falls into the `else` branch (one empty page);
only a parse that throws keeps the raw string as a single legacy page. -/
def loadNote (dims : Int × Int) (drawingData : String) : EngineState :=
  if drawingData = "" then
    ⟨[emptyBuf dims], 0, initialCanvas dims, "INITIAL_LOAD", none⟩
  else
    match parseJson drawingData with
    | some (.arr (p :: ps)) =>
      ⟨(p :: ps).map asPageString, 0, initialCanvas dims, "INITIAL_LOAD", none⟩
    | some _ =>
      ⟨[emptyBuf dims], 0, initialCanvas dims, "INITIAL_LOAD", none⟩
    | none =>
      ⟨[drawingData], 0, initialCanvas dims, "", none⟩

/-- The `drawingData` produced by `handleSave` (part_006 lines 271-301):
the current page is replaced by the optimized live buffer and the page
array is serialized with `JSON.stringify`. -/
def handleSave (dims : Int × Int) (s : EngineState) : String :=
  stringify (.arr ((s.pages.set s.currentPage
    (optimizeCanvasData dims s.canvas.data)).map Json.str))

/-- Modelled from the spec: `toArray()` of the Page Store (spec section
4.2: returns the serialized array of per-page StrokeBuffer strings, each
passed through `optimize`).  The source has no such function; `handleSave`
optimizes only the active page. -/
def toArray (dims : Int × Int) (s : EngineState) : List String :=
  s.pages.map (optimizeCanvasData dims)

/-- One user-driven engine step. -/
inductive Step (dims : Int × Int) : EngineState → EngineState → Prop where
  | add (s : EngineState) : Step dims s (addNewPage dims s)
  | go (i : Nat) (s : EngineState) : Step dims s (goToPage dims i s)
  | del (s : EngineState) : Step dims s (deleteCurrentPage s)
  | flush (s : EngineState) : Step dims s (saveCurrentPageData dims s)
  | bind (s : EngineState) : Step dims s (bindEffect dims s)

/-- States reachable from a `loadNote` by user-driven steps. -/
inductive Reachable (dims : Int × Int) : EngineState → Prop where
  | load (d : String) : Reachable dims (loadNote dims d)
  | step {s s' : EngineState} : Reachable dims s → Step dims s s' → Reachable dims s'

/-- States reachable from loads whose parsed page array has at most 50
elements.  `loadNote` itself imposes no cap on the loaded array, so the
C9 invariant needs this restriction on the initial load. -/
inductive ReachableBounded (dims : Int × Int) : EngineState → Prop where
  | load (d : String)
      (h : ∀ xs, parseJson d = some (Json.arr xs) → xs.length ≤ 50) :
      ReachableBounded dims (loadNote dims d)
  | step {s s' : EngineState} : ReachableBounded dims s → Step dims s s' →
      ReachableBounded dims s'


/-! ## Round-trip: the reader inverts the serializer -/

theorem skipWs_cons_not {c : Char} (l : List Char) (h : isWs c = false) :
    skipWs (c :: l) = c :: l := by
  simp [skipWs, h]

theorem isWs_eq_false_of_isDigit {c : Char} (h : isDigit c = true) : isWs c = false := by
  by_contra hw
  rw [Bool.not_eq_false] at hw
  simp only [isWs, Bool.or_eq_true, decide_eq_true_eq] at hw
  rcases hw with ((h1 | h1) | h1) | h1 <;> subst h1 <;> exact absurd h (by decide)

theorem ne_of_isDigit {c d : Char} (h : isDigit c = true) (hd : isDigit d = false) :
    c ≠ d := by
  intro he
  subst he
  rw [h] at hd
  cases hd

theorem isDigit_digitChar {n : Nat} (h : n < 10) : isDigit (digitChar n) = true := by
  interval_cases n <;> decide

theorem digitChar_ne_zero {n : Nat} (h0 : 0 < n) (h : n < 10) : digitChar n ≠ '0' := by
  interval_cases n <;> decide

theorem natDigitsGo_zero (fuel : Nat) (acc : List Char) :
    natDigitsGo fuel 0 acc = acc := by
  cases fuel <;> simp [natDigitsGo]

theorem digitsToNat_seed (a : Nat) (l : List Char) :
    l.foldl (fun x c => 10 * x + (c.toNat - 48)) a = a * 10 ^ l.length + digitsToNat l := by
  induction l generalizing a with
  | nil => simp [digitsToNat]
  | cons c t ih =>
    have hd : digitsToNat (c :: t) = (c.toNat - 48) * 10 ^ t.length + digitsToNat t := by
      have := ih (10 * 0 + (c.toNat - 48))
      simpa [digitsToNat] using this
    simp only [List.foldl_cons]
    rw [ih, hd, List.length_cons, pow_succ]
    ring

theorem digitsToNat_go (n : Nat) : ∀ fuel acc, n ≤ fuel →
    digitsToNat (natDigitsGo fuel n acc) = n * 10 ^ acc.length + digitsToNat acc := by
  induction n using Nat.strongRecOn with
  | _ n ih =>
    intro fuel acc hle
    match fuel with
    | 0 =>
      have : n = 0 := by omega
      subst this
      simp [natDigitsGo]
    | f + 1 =>
      by_cases hn : n = 0
      · subst hn
        simp [natDigitsGo]
      · have hlt : n / 10 < n := Nat.div_lt_self (Nat.pos_of_ne_zero hn) (by omega)
        have hstep : natDigitsGo (f + 1) n acc =
            natDigitsGo f (n / 10) (digitChar (n % 10) :: acc) := by
          simp [natDigitsGo, hn]
        rw [hstep, ih (n / 10) hlt f _ (by omega)]
        have hmod : (digitChar (n % 10)).toNat - 48 = n % 10 := by
          have h10 : n % 10 < 10 := Nat.mod_lt _ (by omega)
          interval_cases h : n % 10 <;> decide
        have hdd : digitsToNat (digitChar (n % 10) :: acc) =
            (n % 10) * 10 ^ acc.length + digitsToNat acc := by
          have := digitsToNat_seed (10 * 0 + ((digitChar (n % 10)).toNat - 48)) acc
          simpa [digitsToNat, hmod] using this
        rw [hdd, List.length_cons, pow_succ]
        have hsplit : 10 * (n / 10) + n % 10 = n := Nat.div_add_mod n 10
        calc n / 10 * (10 ^ acc.length * 10) + ((n % 10) * 10 ^ acc.length + digitsToNat acc)
            = (10 * (n / 10) + n % 10) * 10 ^ acc.length + digitsToNat acc := by ring
          _ = n * 10 ^ acc.length + digitsToNat acc := by rw [hsplit]

theorem digitsToNat_natDigits (n : Nat) : digitsToNat (natDigits n) = n := by
  unfold natDigits
  by_cases h : n = 0
  · subst h
    decide
  · rw [if_neg h, digitsToNat_go n n [] le_rfl]
    simp [digitsToNat]

theorem natDigitsGo_head (n : Nat) : ∀ fuel acc, n ≠ 0 → n ≤ fuel →
    ∃ c t, natDigitsGo fuel n acc = c :: t ∧ isDigit c = true ∧ c ≠ '0' := by
  induction n using Nat.strongRecOn with
  | _ n ih =>
    intro fuel acc hn hle
    match fuel with
    | 0 => omega
    | f + 1 =>
      have hstep : natDigitsGo (f + 1) n acc =
          natDigitsGo f (n / 10) (digitChar (n % 10) :: acc) := by
        simp [natDigitsGo, hn]
      by_cases h10 : n / 10 = 0
      · refine ⟨digitChar (n % 10), acc, ?_, ?_, ?_⟩
        · rw [hstep, h10, natDigitsGo_zero]
        · exact isDigit_digitChar (Nat.mod_lt _ (by omega))
        · have : n < 10 := by omega
          have : n % 10 = n := Nat.mod_eq_of_lt this
          exact digitChar_ne_zero (by omega) (by omega)
      · have hlt : n / 10 < n := Nat.div_lt_self (Nat.pos_of_ne_zero hn) (by omega)
        obtain ⟨c, t, he, hd, h0⟩ := ih (n / 10) hlt f (digitChar (n % 10) :: acc) h10 (by omega)
        exact ⟨c, t, by rw [hstep, he], hd, h0⟩

theorem natDigits_head (n : Nat) :
    ∃ c t, natDigits n = c :: t ∧ isDigit c = true := by
  unfold natDigits
  by_cases h : n = 0
  · exact ⟨'0', [], by rw [if_pos h], by decide⟩
  · obtain ⟨c, t, he, hd, _⟩ := natDigitsGo_head n n [] h le_rfl
    exact ⟨c, t, by rw [if_neg h, he], hd⟩

theorem natDigitsGo_all (fuel : Nat) : ∀ n acc, n ≤ fuel →
    (∀ c ∈ acc, isDigit c = true) →
    ∀ c ∈ natDigitsGo fuel n acc, isDigit c = true := by
  induction fuel with
  | zero =>
    intro n acc _ hacc
    simpa [natDigitsGo] using hacc
  | succ f ih =>
    intro n acc hle hacc
    by_cases hn : n = 0
    · subst hn
      simpa [natDigitsGo] using hacc
    · have hlt : n / 10 < n := Nat.div_lt_self (Nat.pos_of_ne_zero hn) (by omega)
      simp only [natDigitsGo, hn, if_false]
      refine ih (n / 10) (digitChar (n % 10) :: acc) (by omega) ?_
      intro c hc
      rcases List.mem_cons.mp hc with h | h
      · subst h
        exact isDigit_digitChar (Nat.mod_lt _ (by omega))
      · exact hacc c h

theorem natDigits_all (n : Nat) : ∀ c ∈ natDigits n, isDigit c = true := by
  unfold natDigits
  by_cases h : n = 0
  · rw [if_pos h]
    intro c hc
    simp only [List.mem_singleton] at hc
    subst hc
    decide
  · rw [if_neg h]
    exact natDigitsGo_all n n [] le_rfl (by simp)

theorem leadingZeroBad_natDigits (n : Nat) : leadingZeroBad (natDigits n) = false := by
  unfold natDigits
  by_cases h : n = 0
  · rw [if_pos h]
    rfl
  · rw [if_neg h]
    obtain ⟨c, t, he, _, h0⟩ := natDigitsGo_head n n [] h le_rfl
    rw [he]
    cases t with
    | nil => rfl
    | cons a t' => simp [leadingZeroBad, h0]

theorem spanDigits_exact (ds : List Char) : ∀ rest, (∀ c ∈ ds, isDigit c = true) →
    noDigitHead rest = true → spanDigits (ds ++ rest) = (ds, rest) := by
  induction ds with
  | nil =>
    intro rest _ hr
    cases rest with
    | nil => rfl
    | cons c t =>
      simp only [noDigitHead, Bool.not_eq_true'] at hr
      simp [spanDigits, hr]
  | cons c t ih =>
    intro rest hds hr
    have hc : isDigit c = true := hds c (List.mem_cons_self c t)
    have hstep : spanDigits (c :: t ++ rest) =
        (c :: (spanDigits (t ++ rest)).1, (spanDigits (t ++ rest)).2) := by
      rw [List.cons_append, spanDigits.eq_def]
      simp [hc]
    rw [hstep, ih rest (fun d hd2 => hds d (List.mem_cons_of_mem c hd2)) hr]

theorem parseNatNum_natDigits (n : Nat) (rest : List Char)
    (hr : noDigitHead rest = true) :
    parseNatNum (natDigits n ++ rest) = some (n, rest) := by
  have hne : natDigits n ≠ [] := by
    obtain ⟨c, t, he, _⟩ := natDigits_head n
    simp [he]
  unfold parseNatNum
  rw [spanDigits_exact _ _ (natDigits_all n) hr]
  simp [hne, leadingZeroBad_natDigits, digitsToNat_natDigits]

theorem parseNum_serNum (n : Int) (rest : List Char)
    (hr : noDigitHead rest = true) :
    parseNum (serNum n ++ rest) = some (n, rest) := by
  unfold serNum
  by_cases h : n < 0
  · rw [if_pos h]
    simp only [List.cons_append, parseNum, if_pos rfl]
    rw [parseNatNum_natDigits _ _ hr]
    have : ((-n).toNat : Int) = -n := Int.toNat_of_nonneg (by omega)
    simp [this]
  · rw [if_neg h]
    obtain ⟨c, t, he, hd⟩ := natDigits_head n.toNat
    rw [he, List.cons_append, parseNum,
      if_neg (ne_of_isDigit hd (by decide) : c ≠ '-'), ← List.cons_append, ← he,
      parseNatNum_natDigits _ _ hr]
    have : (n.toNat : Int) = n := Int.toNat_of_nonneg (by omega)
    simp [this]

theorem parseStringBody_ser (l : List Char) : ∀ rest,
    parseStringBody (serStrBody l ++ '"' :: rest) = some (l, rest) := by
  induction l with
  | nil =>
    intro rest
    show parseStringBody ([] ++ '"' :: rest) = some ([], rest)
    rw [List.nil_append, parseStringBody.eq_def]
    simp
  | cons c t ih =>
    intro rest
    have hsplit : serStrBody (c :: t) = escapeChar c ++ serStrBody t := by
      simp [serStrBody]
    rw [hsplit, List.append_assoc]
    unfold escapeChar
    by_cases h1 : c = '"'
    · subst h1
      rw [if_pos rfl, List.cons_append, List.cons_append, List.nil_append,
        parseStringBody.eq_def]
      simp [unescape, ih]
    · rw [if_neg h1]
      by_cases h2 : c = '\\'
      · subst h2
        rw [if_pos rfl, List.cons_append, List.cons_append, List.nil_append,
          parseStringBody.eq_def]
        simp [unescape, ih]
      · rw [if_neg h2]
        by_cases h3 : c = '\n'
        · subst h3
          rw [if_pos rfl, List.cons_append, List.cons_append, List.nil_append,
            parseStringBody.eq_def]
          simp [unescape, ih]
        · rw [if_neg h3]
          by_cases h4 : c = '\t'
          · subst h4
            rw [if_pos rfl, List.cons_append, List.cons_append, List.nil_append,
              parseStringBody.eq_def]
            simp [unescape, ih]
          · rw [if_neg h4]
            by_cases h5 : c = '\r'
            · subst h5
              rw [if_pos rfl, List.cons_append, List.cons_append, List.nil_append,
                parseStringBody.eq_def]
              simp [unescape, ih]
            · rw [if_neg h5, List.singleton_append, parseStringBody.eq_def]
              simp [h1, h2, ih]

theorem parseVal_add_one (f : Nat) : parseVal (f + 1) = parseVal f.succ := rfl

theorem parseElems_add_one (f : Nat) : parseElems (f + 1) = parseElems f.succ := rfl

theorem parseMembers_add_one (f : Nat) : parseMembers (f + 1) = parseMembers f.succ := rfl

theorem serNum_head (n : Int) :
    ∃ c t, serNum n = c :: t ∧ (c = '-' ∨ isDigit c = true) := by
  unfold serNum
  by_cases h : n < 0
  · exact ⟨'-', _, by rw [if_pos h], Or.inl rfl⟩
  · obtain ⟨c, t, he, hd⟩ := natDigits_head n.toNat
    exact ⟨c, t, by rw [if_neg h, he], Or.inr hd⟩

theorem ser_head (v : Json) :
    ∃ c t, ser v = c :: t ∧ isWs c = false ∧ c ≠ ']' ∧ c ≠ '}' := by
  cases v with
  | null => exact ⟨'n', ['u', 'l', 'l'], by simp [ser], by decide, by decide, by decide⟩
  | bool b =>
    cases b with
    | true => exact ⟨'t', ['r', 'u', 'e'], by simp [ser], by decide, by decide, by decide⟩
    | false =>
      exact ⟨'f', ['a', 'l', 's', 'e'], by simp [ser], by decide, by decide, by decide⟩
  | num n =>
    obtain ⟨c, t, he, hk⟩ := serNum_head n
    rcases hk with rfl | hd
    · exact ⟨'-', t, by simp [ser, he], by decide, by decide, by decide⟩
    · exact ⟨c, t, by simp [ser, he], isWs_eq_false_of_isDigit hd,
        ne_of_isDigit hd (by decide), ne_of_isDigit hd (by decide)⟩
  | str s =>
    exact ⟨'"', serStrBody s.data ++ ['"'], by simp [ser], by decide, by decide, by decide⟩
  | arr xs =>
    exact ⟨'[', serElems xs ++ [']'], by simp [ser], by decide, by decide, by decide⟩
  | obj kvs =>
    exact ⟨'{', serMembers kvs ++ ['}'], by simp [ser], by decide, by decide, by decide⟩

theorem ser_length_pos (v : Json) : 0 < (ser v).length := by
  obtain ⟨c, t, he, _⟩ := ser_head v
  simp [he]

theorem noDigitHead_rbrack (r : List Char) : noDigitHead (']' :: r) = true := rfl

theorem noDigitHead_rbrace (r : List Char) : noDigitHead ('}' :: r) = true := rfl

theorem noDigitHead_comma (r : List Char) : noDigitHead (',' :: r) = true := rfl

theorem serElems_cons_expose (x : Json) (xs' : List Json) (tail : List Char) :
    ∃ c mid, serElems (x :: xs') ++ tail = c :: mid ∧ isWs c = false ∧
      c ≠ ']' ∧ c ≠ '}' := by
  obtain ⟨c, t, he, hws, h1, h2⟩ := ser_head x
  cases xs' with
  | nil => exact ⟨c, t ++ tail, by simp [serElems, he], hws, h1, h2⟩
  | cons y ys =>
    exact ⟨c, t ++ ',' :: serElems (y :: ys) ++ tail,
      by simp [serElems, he, List.append_assoc], hws, h1, h2⟩

theorem serMembers_cons_expose (k : String) (v : Json) (kvs' : List (String × Json))
    (tail : List Char) :
    ∃ mid, serMembers ((k, v) :: kvs') ++ tail = '"' :: mid := by
  cases kvs' with
  | nil =>
    exact ⟨serStrBody k.data ++ '"' :: ':' :: ser v ++ tail,
      by simp [serMembers, serMember, List.append_assoc]⟩
  | cons m ms =>
    exact ⟨serStrBody k.data ++ '"' :: ':' :: ser v ++ ',' :: serMembers (m :: ms) ++ tail,
      by simp [serMembers, serMember, List.append_assoc]⟩

theorem parse_ser_all : ∀ fuel,
    (∀ v rest, (ser v).length < fuel → noDigitHead rest = true →
      parseVal fuel (ser v ++ rest) = some (v, rest)) ∧
    (∀ xs rest, xs ≠ [] → (serElems xs).length + 1 < fuel →
      parseElems fuel (serElems xs ++ ']' :: rest) = some (xs, rest)) ∧
    (∀ kvs rest, kvs ≠ [] → (serMembers kvs).length + 1 < fuel →
      parseMembers fuel (serMembers kvs ++ '}' :: rest) = some (kvs, rest)) := by
  intro fuel
  induction fuel with
  | zero =>
    exact ⟨fun v rest h _ => absurd h (by omega),
      fun xs rest _ h => absurd h (by omega),
      fun kvs rest _ h => absurd h (by omega)⟩
  | succ f ih =>
    obtain ⟨ihV, ihE, ihM⟩ := ih
    refine ⟨?_, ?_, ?_⟩
    · intro v rest hlen hrd
      cases v with
      | null =>
        rw [show ser Json.null = ['n', 'u', 'l', 'l'] from by simp [ser]]
        rw [parseVal_add_one, parseVal.eq_2]
        simp [skipWs, isWs]
      | bool b =>
        cases b with
        | true =>
          rw [show ser (Json.bool true) = ['t', 'r', 'u', 'e'] from by simp [ser]]
          rw [parseVal_add_one, parseVal.eq_2]
          simp [skipWs, isWs]
        | false =>
          rw [show ser (Json.bool false) = ['f', 'a', 'l', 's', 'e'] from by simp [ser]]
          rw [parseVal_add_one, parseVal.eq_2]
          simp [skipWs, isWs]
      | str s =>
        rw [show ser (Json.str s) = '"' :: (serStrBody s.data ++ ['"']) from by simp [ser]]
        have hb := parseStringBody_ser s.data rest
        rw [List.cons_append, parseVal_add_one, parseVal.eq_2]
        rw [skipWs_cons_not _ (by decide)]
        simp only [List.append_assoc, List.singleton_append]
        simp [hb]
      | num n =>
        rw [show ser (Json.num n) = serNum n from by simp [ser]]
        obtain ⟨c0, t0, he0, hk⟩ := serNum_head n
        have hnum := parseNum_serNum n rest hrd
        rw [he0, List.cons_append] at hnum ⊢
        rw [parseVal_add_one, parseVal.eq_2]
        rcases hk with rfl | hd
        · rw [skipWs_cons_not _ (by decide)]
          simp [hnum]
        · have h1 : ¬ c0 = 'n' := ne_of_isDigit hd (by decide)
          have h2 : ¬ c0 = 't' := ne_of_isDigit hd (by decide)
          have h3 : ¬ c0 = 'f' := ne_of_isDigit hd (by decide)
          have h4 : ¬ c0 = '"' := ne_of_isDigit hd (by decide)
          have h5 : ¬ c0 = '[' := ne_of_isDigit hd (by decide)
          have h6 : ¬ c0 = '{' := ne_of_isDigit hd (by decide)
          rw [skipWs_cons_not _ (isWs_eq_false_of_isDigit hd)]
          simp [h1, h2, h3, h4, h5, h6, hd, hnum]
      | arr xs =>
        cases xs with
        | nil =>
          rw [show ser (Json.arr []) = ['[', ']'] from by simp [ser, serElems]]
          rw [parseVal_add_one, parseVal.eq_2]
          simp [skipWs, isWs]
        | cons x xs' =>
          have hlen2 : (serElems (x :: xs')).length + 1 < f := by
            have hx : (ser (Json.arr (x :: xs'))).length =
                (serElems (x :: xs')).length + 2 := by
              simp only [ser, List.length_cons, List.length_append, List.length_nil]
            omega
          have hE := ihE (x :: xs') rest (by simp) hlen2
          obtain ⟨c0, mid, hsp, hws0, hnb0, _⟩ :=
            serElems_cons_expose x xs' (']' :: rest)
          rw [show ser (Json.arr (x :: xs')) = '[' :: (serElems (x :: xs') ++ [']'])
            from by simp [ser]]
          rw [List.cons_append, List.append_assoc, List.singleton_append,
            parseVal_add_one, parseVal.eq_2]
          rw [skipWs_cons_not _ (by decide)]
          simp only [if_neg (by decide : ¬('[' : Char) = 'n'),
            if_neg (by decide : ¬('[' : Char) = 't'),
            if_neg (by decide : ¬('[' : Char) = 'f'),
            if_neg (by decide : ¬('[' : Char) = '"'),
            if_pos (rfl : ('[' : Char) = '[')]
          rw [hsp] at hE ⊢
          rw [skipWs_cons_not _ hws0]
          simp [hnb0, hE]
      | obj kvs =>
        cases kvs with
        | nil =>
          rw [show ser (Json.obj []) = ['{', '}'] from by simp [ser, serMembers]]
          rw [parseVal_add_one, parseVal.eq_2]
          simp [skipWs, isWs]
        | cons kv kvs' =>
          obtain ⟨k, v⟩ := kv
          have hlen2 : (serMembers ((k, v) :: kvs')).length + 1 < f := by
            have hx : (ser (Json.obj ((k, v) :: kvs'))).length =
                (serMembers ((k, v) :: kvs')).length + 2 := by
              simp only [ser, List.length_cons, List.length_append, List.length_nil]
            omega
          have hM := ihM ((k, v) :: kvs') rest (by simp) hlen2
          obtain ⟨mid, hsp⟩ := serMembers_cons_expose k v kvs' ('}' :: rest)
          rw [show ser (Json.obj ((k, v) :: kvs')) =
              '{' :: (serMembers ((k, v) :: kvs') ++ ['}']) from by simp [ser]]
          rw [List.cons_append, List.append_assoc, List.singleton_append,
            parseVal_add_one, parseVal.eq_2]
          rw [skipWs_cons_not _ (by decide)]
          simp only [if_neg (by decide : ¬('{' : Char) = 'n'),
            if_neg (by decide : ¬('{' : Char) = 't'),
            if_neg (by decide : ¬('{' : Char) = 'f'),
            if_neg (by decide : ¬('{' : Char) = '"'),
            if_neg (by decide : ¬('{' : Char) = '['),
            if_pos (rfl : ('{' : Char) = '{')]
          rw [hsp] at hM ⊢
          rw [skipWs_cons_not _ (by decide)]
          simp [hM]
    · intro xs rest hne hlen
      match xs with
      | [] => exact absurd rfl hne
      | [x] =>
        have hlx : (ser x).length < f := by
          have hx : serElems [x] = ser x := by simp [serElems]
          rw [hx] at hlen
          omega
        rw [show serElems [x] = ser x from by simp [serElems]]
        rw [parseElems_add_one, parseElems.eq_2,
          ihV x (']' :: rest) hlx (noDigitHead_rbrack rest)]
        simp [skipWs_cons_not, isWs]
      | x :: y :: ys =>
        have hsplit : serElems (x :: y :: ys) = ser x ++ ',' :: serElems (y :: ys) := by
          simp [serElems]
        have hlens : (serElems (x :: y :: ys)).length =
            (ser x).length + 1 + (serElems (y :: ys)).length := by
          simp only [hsplit, List.length_append, List.length_cons]
          omega
        have h1 := ser_length_pos x
        have hlx : (ser x).length < f := by omega
        have hly : (serElems (y :: ys)).length + 1 < f := by omega
        rw [hsplit, List.append_assoc, List.cons_append, parseElems_add_one,
          parseElems.eq_2, ihV x _ hlx (noDigitHead_comma _)]
        simp [skipWs_cons_not, isWs, ihE (y :: ys) rest (by simp) hly]
    · intro kvs rest hne hlen
      match kvs with
      | [] => exact absurd rfl hne
      | [(k, v)] =>
        have hsm : serMembers [(k, v)] = serMember k v := by simp [serMembers]
        have hmemlen : (serMember k v).length =
            (serStrBody k.data).length + 3 + (ser v).length := by
          simp only [serMember, List.length_cons, List.length_append]
          omega
        have hlx : (ser v).length < f := by
          rw [hsm, hmemlen] at hlen
          omega
        rw [hsm, show serMember k v = '"' :: (serStrBody k.data ++ '"' :: ':' :: ser v)
          from by simp [serMember]]
        rw [List.cons_append, parseMembers_add_one, parseMembers.eq_2]
        rw [skipWs_cons_not _ (by decide)]
        simp only [List.append_assoc, List.cons_append]
        simp [skipWs_cons_not, isWs, parseStringBody_ser k.data,
          ihV v ('}' :: rest) hlx (noDigitHead_rbrace rest)]
      | (k, v) :: m :: ms =>
        have hsplit : serMembers ((k, v) :: m :: ms) =
            serMember k v ++ ',' :: serMembers (m :: ms) := by
          simp [serMembers]
        have hmemlen : (serMember k v).length =
            (serStrBody k.data).length + 3 + (ser v).length := by
          simp only [serMember, List.length_cons, List.length_append]
          omega
        have hlens : (serMembers ((k, v) :: m :: ms)).length =
            (serMember k v).length + 1 + (serMembers (m :: ms)).length := by
          simp only [hsplit, List.length_append, List.length_cons]
          omega
        have hlx : (ser v).length < f := by omega
        have hlm : (serMembers (m :: ms)).length + 1 < f := by omega
        rw [hsplit, show serMember k v = '"' :: (serStrBody k.data ++ '"' :: ':' :: ser v)
          from by simp [serMember]]
        rw [parseMembers_add_one, parseMembers.eq_2]
        simp only [List.append_assoc, List.cons_append]
        rw [skipWs_cons_not _ (by decide)]
        simp [skipWs_cons_not, isWs, parseStringBody_ser k.data,
          ihV v _ hlx (noDigitHead_comma _), ihM (m :: ms) rest (by simp) hlm]

/-- The reader inverts the serializer: the central round-trip law. -/
theorem parse_stringify (v : Json) : parseJson (stringify v) = some v := by
  have h := (parse_ser_all ((ser v).length + 1)).1 v [] (by omega) rfl
  rw [List.append_nil] at h
  show (match parseVal ((ser v).length + 1) (ser v) with
    | none => none
    | some (w, rest) => if skipWs rest = [] then some w else none) = some v
  rw [h]
  simp [skipWs]

/-- The serializer is injective (via the round trip). -/
theorem stringify_injective {v w : Json} (h : stringify v = stringify w) : v = w := by
  have hv := parse_stringify v
  rw [h, parse_stringify w] at hv
  exact (Option.some.inj hv).symm

theorem skipWs_of_all_ws {l : List Char} (h : l.all isWs = true) : skipWs l = [] := by
  induction l with
  | nil => rfl
  | cons c t ih =>
    simp only [List.all_cons, Bool.and_eq_true] at h
    simp [skipWs, h.1, ih h.2]

/-- A blank string is not JSON. -/
theorem parseJson_blank {s : String} (h : s.data.all isWs = true) :
    parseJson s = none := by
  unfold parseJson
  rw [parseVal_add_one, parseVal.eq_2, skipWs_of_all_ws h]


theorem lookupKey_setKey (kvs : List (String × Json)) (k : String) (v : Json) :
    lookupKey (setKey kvs k v) k = some v := by
  induction kvs with
  | nil => simp [setKey, lookupKey]
  | cons kv t ih =>
    obtain ⟨k', v'⟩ := kv
    by_cases h : k' = k
    · simp [setKey, h, lookupKey]
    · simp [setKey, h, lookupKey, ih]

theorem lookupKey_setKey_ne (kvs : List (String × Json)) (k k' : String) (v : Json)
    (h : k' ≠ k) : lookupKey (setKey kvs k v) k' = lookupKey kvs k' := by
  have hne : ¬ k = k' := fun he => h he.symm
  induction kvs with
  | nil => simp [setKey, lookupKey, hne]
  | cons kv t ih =>
    obtain ⟨k0, v0⟩ := kv
    by_cases h0 : k0 = k
    · subst h0
      simp [setKey, lookupKey, hne]
    · simp [setKey, h0, lookupKey, ih]

theorem setKey_of_lookup {kvs : List (String × Json)} {k : String} {v : Json}
    (h : lookupKey kvs k = some v) : setKey kvs k v = kvs := by
  induction kvs with
  | nil => simp [lookupKey] at h
  | cons kv t ih =>
    obtain ⟨k0, v0⟩ := kv
    by_cases h0 : k0 = k
    · subst h0
      rw [lookupKey, if_pos rfl] at h
      simp only [Option.some.injEq] at h
      simp [setKey, h]
    · rw [lookupKey, if_neg h0] at h
      simp [setKey, h0, ih h]

theorem blank_false_of_parse {s : String} {v : Json} (h : parseJson s = some v) :
    blank s = false := by
  by_contra hb
  rw [Bool.not_eq_false] at hb
  rw [parseJson_blank hb] at h
  cases h

/-- Unfolding of `optimizeCanvasData` on input that parses to an object
with a `lines` array. -/
theorem optimize_of_obj (dims : Int × Int) {s : String} {kvs : List (String × Json)}
    {ls : List Json} (hp : parseJson s = some (Json.obj kvs))
    (hl : lookupKey kvs "lines" = some (Json.arr ls)) :
    optimizeCanvasData dims s =
      stringify (Json.obj (setKey kvs "lines" (Json.arr (ls.filter keepLine)))) := by
  unfold optimizeCanvasData
  rw [if_neg (by simp [blank_false_of_parse hp])]
  simp [hp, hl]

/-- Unfolding of `optimizeCanvasData` on input that does not parse. -/
theorem optimize_of_none (dims : Int × Int) {s : String} (hp : parseJson s = none) :
    optimizeCanvasData dims s = emptyBuf dims := by
  unfold optimizeCanvasData
  by_cases hb : blank s
  · rw [if_pos hb]
  · rw [if_neg hb, hp]

/-- Unfolding of `optimizeCanvasData` on input that parses to a value
without a `lines` array. -/
theorem optimize_of_badShape (dims : Int × Int) {s : String} {v : Json}
    (hp : parseJson s = some v) (hv : hasLinesArray v = false) :
    optimizeCanvasData dims s = emptyBuf dims := by
  unfold optimizeCanvasData
  rw [if_neg (by simp [blank_false_of_parse hp])]
  cases v with
  | obj kvs =>
    cases hlk : lookupKey kvs "lines" with
    | none => simp [hp, hlk]
    | some w =>
      simp only [hasLinesArray] at hv
      rw [hlk] at hv
      cases w with
      | arr ls => simp at hv
      | null => simp [hp, hlk]
      | bool b => simp [hp, hlk]
      | num n => simp [hp, hlk]
      | str t => simp [hp, hlk]
      | obj kvs2 => simp [hp, hlk]
  | null => simp [hp]
  | bool b => simp [hp]
  | num n => simp [hp]
  | str t => simp [hp]
  | arr xs => simp [hp]

theorem filter_keepLine_idem (ls : List Json) :
    (ls.filter keepLine).filter keepLine = ls.filter keepLine := by
  simp [List.filter_filter]

/-- Every output of `optimizeCanvasData` is the serialization of an object
whose `lines` field is an array of already-filtered strokes. -/
theorem optimize_spec (dims : Int × Int) (s : String) :
    ∃ kvs ls, optimizeCanvasData dims s = stringify (Json.obj kvs) ∧
      lookupKey kvs "lines" = some (Json.arr ls) ∧ ls.filter keepLine = ls := by
  cases hp : parseJson s with
  | none =>
    exact ⟨[("lines", .arr []), ("width", .num dims.1), ("height", .num dims.2)], [],
      optimize_of_none dims hp, by simp [lookupKey], rfl⟩
  | some v =>
    by_cases hv : hasLinesArray v = true
    · cases v with
      | obj kvs =>
        simp only [hasLinesArray] at hv
        cases hlk : lookupKey kvs "lines" with
        | none => rw [hlk] at hv; simp at hv
        | some w =>
          rw [hlk] at hv
          cases w with
          | arr ls =>
            exact ⟨setKey kvs "lines" (.arr (ls.filter keepLine)), ls.filter keepLine,
              optimize_of_obj dims hp hlk, lookupKey_setKey kvs "lines" _,
              filter_keepLine_idem ls⟩
          | null => simp at hv
          | bool b => simp at hv
          | num n => simp at hv
          | str t => simp at hv
          | obj kvs2 => simp at hv
      | null => simp [hasLinesArray] at hv
      | bool b => simp [hasLinesArray] at hv
      | num n => simp [hasLinesArray] at hv
      | str t => simp [hasLinesArray] at hv
      | arr xs => simp [hasLinesArray] at hv
    · have hv' : hasLinesArray v = false := by simpa using hv
      exact ⟨[("lines", .arr []), ("width", .num dims.1), ("height", .num dims.2)], [],
        optimize_of_badShape dims hp hv', by simp [lookupKey], rfl⟩

/-- `optimizeCanvasData` is idempotent. -/
theorem optimize_idem (dims : Int × Int) (s : String) :
    optimizeCanvasData dims (optimizeCanvasData dims s) = optimizeCanvasData dims s := by
  obtain ⟨kvs, ls, he, hl, hf⟩ := optimize_spec dims s
  rw [he, optimize_of_obj dims (parse_stringify _) hl, hf, setKey_of_lookup hl]


/-! ## Engine support lemmas -/

theorem stringify_obj_data (kvs : List (String × Json)) :
    (stringify (Json.obj kvs)).data = '{' :: (serMembers kvs ++ ['}']) := by
  simp [stringify, ser]

theorem stringify_obj_not_blank (kvs : List (String × Json)) :
    blank (stringify (Json.obj kvs)) = false := by
  simp [blank, stringify_obj_data, isWs]

theorem stringify_obj_ne_of_head {kvs : List (String × Json)} {t : String}
    (h : t.data.head? ≠ some '{') : stringify (Json.obj kvs) ≠ t := by
  intro he
  apply h
  rw [← he]
  rw [show (stringify (Json.obj kvs)).data = '{' :: (serMembers kvs ++ ['}']) from
    stringify_obj_data kvs]
  rfl

theorem stringify_ne_empty (v : Json) : stringify v ≠ "" := by
  obtain ⟨c, t, he, _⟩ := ser_head v
  intro h
  have hd : (stringify v).data = [] := by rw [h]
  rw [show (stringify v).data = ser v from rfl, he] at hd
  cases hd

/-- If data serializes an object with a `lines` array and differs from
`lastLoadedData`, the Canvas Binding performs exactly one clear then one
load, and records the data as last loaded. -/
theorem bindActivePage_loads (dims : Int × Int) {d : String}
    {kvs : List (String × Json)} {ls : List Json} (c : Canvas) (last : String)
    (hd : d = stringify (Json.obj kvs))
    (hl : lookupKey kvs "lines" = some (Json.arr ls))
    (hne : d ≠ last) :
    bindActivePage dims d c last = ((c.clearOp dims).loadOp d, d) := by
  have hb : blank d = false := by rw [hd]; exact stringify_obj_not_blank kvs
  have h1 : d ≠ "\"\"" := by rw [hd]; exact stringify_obj_ne_of_head (by decide)
  have h2 : d ≠ "[]" := by rw [hd]; exact stringify_obj_ne_of_head (by decide)
  have hp : parseJson d = some (Json.obj kvs) := by rw [hd]; exact parse_stringify _
  unfold bindActivePage
  rw [if_neg hne, if_pos ⟨by simp [hb], h1, h2⟩]
  simp [hp, hasLinesArray, hl]

theorem optimize_ne_of_head (dims : Int × Int) (s : String) {t : String}
    (h : t.data.head? ≠ some '{') : optimizeCanvasData dims s ≠ t := by
  obtain ⟨kvs, ls, he, _, _⟩ := optimize_spec dims s
  rw [he]
  exact stringify_obj_ne_of_head h

/-- A buffer with at least one surviving stroke does not optimize to the
empty buffer. -/
theorem optimize_ne_emptyBuf_of_strokes (dims : Int × Int) {X : String}
    {kvs : List (String × Json)} {ls : List Json}
    (hp : parseJson X = some (Json.obj kvs))
    (hl : lookupKey kvs "lines" = some (Json.arr ls))
    (hf : ls.filter keepLine ≠ []) :
    optimizeCanvasData dims X ≠ emptyBuf dims := by
  rw [optimize_of_obj dims hp hl]
  intro h
  have h0 : stringify (Json.obj (setKey kvs "lines" (Json.arr (ls.filter keepLine)))) =
      stringify (Json.obj [("lines", Json.arr []), ("width", Json.num dims.1),
        ("height", Json.num dims.2)]) := h
  have h1 := stringify_injective h0
  have h2 := lookupKey_setKey kvs "lines" (Json.arr (ls.filter keepLine))
  rw [show setKey kvs "lines" (Json.arr (ls.filter keepLine)) =
    [("lines", Json.arr []), ("width", Json.num dims.1), ("height", Json.num dims.2)]
    from by injection h1] at h2
  simp [lookupKey] at h2
  exact hf (by simpa using h2)

theorem bindEffect_preserves (dims : Int × Int) (s : EngineState) :
    (bindEffect dims s).pages = s.pages ∧
    (bindEffect dims s).currentPage = s.currentPage ∧
    (bindEffect dims s).error = s.error := by
  unfold bindEffect
  by_cases h1 : s.pages = []
  · rw [if_pos h1]
    exact ⟨rfl, rfl, rfl⟩
  · rw [if_neg h1]
    by_cases h2 : s.pages.length ≤ s.currentPage
    · rw [if_pos h2]
      exact ⟨rfl, rfl, rfl⟩
    · rw [if_neg h2]
      exact ⟨rfl, rfl, rfl⟩

/-- Invariant of repeated `addNewPage` from a one-page store: after k
successful calls there are 1+k pages, the index is k, and no error has
been recorded. -/
theorem addNewPage_iter_fromOne (dims : Int × Int) (s0 : EngineState)
    (h1 : s0.pages.length = 1) (h2 : s0.currentPage = 0) (h3 : s0.error = none) :
    ∀ k, k ≤ 49 → ((addNewPage dims)^[k] s0).pages.length = 1 + k ∧
      ((addNewPage dims)^[k] s0).currentPage = k ∧
      ((addNewPage dims)^[k] s0).error = none := by
  intro k
  induction k with
  | zero =>
    intro _
    simpa using ⟨h1, h2, h3⟩
  | succ n ih =>
    intro hk
    obtain ⟨hl, hc, he⟩ := ih (by omega)
    rw [Function.iterate_succ_apply']
    have hstep : addNewPage dims ((addNewPage dims)^[n] s0) =
        { (addNewPage dims)^[n] s0 with
          pages := (((addNewPage dims)^[n] s0).pages.set
            (((addNewPage dims)^[n] s0).currentPage)
            (optimizeCanvasData dims (((addNewPage dims)^[n] s0).canvas.data)))
            ++ [emptyBuf dims],
          currentPage := ((addNewPage dims)^[n] s0).currentPage + 1,
          lastLoadedData := "EMPTY_PAGE" } := by
      revert hl
      generalize (addNewPage dims)^[n] s0 = t
      intro hl
      unfold addNewPage
      rw [if_neg (by omega)]
    rw [hstep]
    refine ⟨?_, ?_, ?_⟩
    · simp only [List.length_append, List.length_set, hl, List.length_cons,
        List.length_nil]
      omega
    · simp [hc]
    · simpa using he

/-- Any bounded load satisfies the page-store invariant. -/
theorem loadNote_inv (dims : Int × Int) (d : String)
    (h : ∀ xs, parseJson d = some (Json.arr xs) → xs.length ≤ 50) :
    1 ≤ (loadNote dims d).pages.length ∧ (loadNote dims d).pages.length ≤ 50 ∧
    (loadNote dims d).currentPage < (loadNote dims d).pages.length := by
  unfold loadNote
  by_cases h0 : d = ""
  · rw [if_pos h0]
    exact ⟨by simp, by simp, by simp⟩
  · rw [if_neg h0]
    cases hp : parseJson d with
    | none => exact ⟨by simp, by simp, by simp⟩
    | some v =>
      cases v with
      | arr xs =>
        cases xs with
        | nil => exact ⟨by simp, by simp, by simp⟩
        | cons p ps =>
          have hb := h (p :: ps) hp
          refine ⟨by simp, ?_, by simp⟩
          show ((p :: ps).map asPageString).length ≤ 50
          simpa using hb
      | null => exact ⟨by simp, by simp, by simp⟩
      | bool b => exact ⟨by simp, by simp, by simp⟩
      | num n => exact ⟨by simp, by simp, by simp⟩
      | str t => exact ⟨by simp, by simp, by simp⟩
      | obj kvs => exact ⟨by simp, by simp, by simp⟩

/-- Every engine step preserves the page-store invariant. -/
theorem step_preserves_inv (dims : Int × Int) {s s' : EngineState}
    (hstep : Step dims s s')
    (h1 : 1 ≤ s.pages.length) (h2 : s.pages.length ≤ 50)
    (h3 : s.currentPage < s.pages.length) :
    1 ≤ s'.pages.length ∧ s'.pages.length ≤ 50 ∧
    s'.currentPage < s'.pages.length := by
  cases hstep with
  | add =>
    unfold addNewPage
    by_cases hc : 50 ≤ s.pages.length
    · rw [if_pos hc]
      exact ⟨h1, h2, h3⟩
    · rw [if_neg hc]
      refine ⟨?_, ?_, ?_⟩ <;>
        (simp only [List.length_append, List.length_set, List.length_cons,
          List.length_nil]; omega)
  | go i =>
    unfold goToPage
    by_cases hg : i = s.currentPage ∨ s.pages.length ≤ i
    · rw [if_pos hg]
      exact ⟨h1, h2, h3⟩
    · rw [if_neg hg]
      push_neg at hg
      obtain ⟨hg1, hg2⟩ := hg
      refine ⟨?_, ?_, ?_⟩ <;> (simp only [List.length_set]; omega)
  | del =>
    unfold deleteCurrentPage
    by_cases hd : s.pages.length ≤ 1
    · rw [if_pos hd]
      exact ⟨h1, h2, h3⟩
    · rw [if_neg hd]
      have hlen : (s.pages.eraseIdx s.currentPage).length = s.pages.length - 1 := by
        rw [List.length_eraseIdx]
        simp [h3]
      refine ⟨?_, ?_, ?_⟩
      · show 1 ≤ (s.pages.eraseIdx s.currentPage).length
        rw [hlen]
        omega
      · show (s.pages.eraseIdx s.currentPage).length ≤ 50
        rw [hlen]
        omega
      · show (if (s.pages.eraseIdx s.currentPage).length ≤ s.currentPage then
            (s.pages.eraseIdx s.currentPage).length - 1 else s.currentPage) <
          (s.pages.eraseIdx s.currentPage).length
        rw [hlen]
        by_cases hci : s.pages.length - 1 ≤ s.currentPage
        · rw [if_pos hci]
          omega
        · rw [if_neg hci]
          omega
  | flush =>
    unfold saveCurrentPageData
    refine ⟨?_, ?_, ?_⟩ <;> (simp only [List.length_set]; omega)
  | bind =>
    rw [(bindEffect_preserves dims s).1, (bindEffect_preserves dims s).2.1]
    exact ⟨h1, h2, h3⟩

/-! ## Claim theorems -/

/-- C4: `optimizeCanvasData` is idempotent — for every string `s` and any
canvas dimensions, `optimize (optimize s) = optimize s`. -/
theorem c4_optimize_idempotent (dims : Int × Int) (s : String) :
    optimizeCanvasData dims (optimizeCanvasData dims s) = optimizeCanvasData dims s :=
  optimize_idem dims s

/-- C5: `optimizeCanvasData` is total (it is a Lean function, so it
returns on every string), and whenever the input fails to parse as JSON,
or parses to a value that is not an object with a `lines` array, the
result is the canonical empty-buffer serialization at the current canvas
dimensions. -/
theorem c5_optimize_malformed_to_empty (dims : Int × Int) (s : String)
    (h : parseJson s = none ∨ ∃ v, parseJson s = some v ∧ hasLinesArray v = false) :
    optimizeCanvasData dims s = emptyBuf dims := by
  rcases h with h | ⟨v, hp, hv⟩
  · exact optimize_of_none dims h
  · exact optimize_of_badShape dims hp hv

/-- Witness for C5 at the non-JSON input `corrupt`. -/
theorem c5_optimize_malformed_to_empty_witness :
    (parseJson "corrupt" = none ∨
      ∃ v, parseJson "corrupt" = some v ∧ hasLinesArray v = false) ∧
    optimizeCanvasData (1900, 1200) "corrupt" = emptyBuf (1900, 1200) :=
  ⟨Or.inl rfl, c5_optimize_malformed_to_empty (1900, 1200) "corrupt" (Or.inl rfl)⟩

/-- C6: on every input that parses to an object with a `lines` array,
`optimizeCanvasData` keeps exactly the strokes with a non-empty `points`
array (`keepLine`), rebinds `lines` in place, and leaves every other key
of the buffer unchanged. -/
theorem c6_optimize_prunes_empty_strokes (dims : Int × Int) (s : String)
    (kvs : List (String × Json)) (ls : List Json)
    (hp : parseJson s = some (Json.obj kvs))
    (hl : lookupKey kvs "lines" = some (Json.arr ls)) :
    optimizeCanvasData dims s =
      stringify (Json.obj (setKey kvs "lines" (Json.arr (ls.filter keepLine)))) ∧
    ∀ k, k ≠ "lines" →
      lookupKey (setKey kvs "lines" (Json.arr (ls.filter keepLine))) k =
        lookupKey kvs k :=
  ⟨optimize_of_obj dims hp hl,
   fun k hk => lookupKey_setKey_ne kvs "lines" k _ hk⟩

/-- Witness for C6 at the example of the claim: the buffer with one empty
stroke and one one-point stroke at width/height 100 optimizes to the
buffer holding only the one-point stroke, other fields untouched. -/
theorem c6_optimize_prunes_empty_strokes_witness :
    parseJson "\x7b\"lines\":[\x7b\"points\":[]\x7d,\x7b\"points\":[\x7b\"x\":1,\"y\":1\x7d]\x7d],\"width\":100,\"height\":100\x7d" =
      some (Json.obj [("lines", Json.arr [Json.obj [("points", Json.arr [])],
        Json.obj [("points", Json.arr [Json.obj [("x", Json.num 1), ("y", Json.num 1)]])]]),
        ("width", Json.num 100), ("height", Json.num 100)]) ∧
    optimizeCanvasData (1900, 1200)
        "\x7b\"lines\":[\x7b\"points\":[]\x7d,\x7b\"points\":[\x7b\"x\":1,\"y\":1\x7d]\x7d],\"width\":100,\"height\":100\x7d" =
      stringify (Json.obj [("lines",
        Json.arr [Json.obj [("points", Json.arr [Json.obj [("x", Json.num 1), ("y", Json.num 1)]])]]),
        ("width", Json.num 100), ("height", Json.num 100)]) :=
  ⟨rfl,
   (c6_optimize_prunes_empty_strokes (1900, 1200)
     "\x7b\"lines\":[\x7b\"points\":[]\x7d,\x7b\"points\":[\x7b\"x\":1,\"y\":1\x7d]\x7d],\"width\":100,\"height\":100\x7d"
     [("lines", Json.arr [Json.obj [("points", Json.arr [])],
        Json.obj [("points", Json.arr [Json.obj [("x", Json.num 1), ("y", Json.num 1)]])]]),
       ("width", Json.num 100), ("height", Json.num 100)]
     [Json.obj [("points", Json.arr [])],
      Json.obj [("points", Json.arr [Json.obj [("x", Json.num 1), ("y", Json.num 1)]])]]
     rfl rfl).1⟩


/-- C1 (code bug): the claim says a drawingData whose parse fails OR whose
parse is a non-array yields one page equal to the raw string.  The code
only keeps the raw string when `JSON.parse` throws; a well-formed legacy
bare-object buffer parses fine, is not an array, and lands in the branch
commented "Empty array case", producing one canonical empty page at the
CURRENT canvas dimensions — the raw legacy buffer is dropped, although the
`catch` branch is commented as the old-format fallback. -/
theorem c1_legacy_object_gets_empty_page :
    (loadNote (1900, 1200) "\x7b\"lines\":[],\"width\":10,\"height\":10\x7d").pages =
      [emptyBuf (1900, 1200)] ∧
    (loadNote (1900, 1200) "\x7b\"lines\":[],\"width\":10,\"height\":10\x7d").pages ≠
      ["\x7b\"lines\":[],\"width\":10,\"height\":10\x7d"] := by
  have hp : parseJson "\x7b\"lines\":[],\"width\":10,\"height\":10\x7d" =
      some (Json.obj [("lines", Json.arr []), ("width", Json.num 10),
        ("height", Json.num 10)]) := rfl
  have hpages : (loadNote (1900, 1200)
      "\x7b\"lines\":[],\"width\":10,\"height\":10\x7d").pages =
      [emptyBuf (1900, 1200)] := by
    unfold loadNote
    rw [if_neg (by decide)]
    simp [hp]
  refine ⟨hpages, ?_⟩
  rw [hpages]
  intro h
  have heq : emptyBuf (1900, 1200) = "\x7b\"lines\":[],\"width\":10,\"height\":10\x7d" := by
    injection h
  have hbig := parse_stringify (Json.obj [("lines", Json.arr []),
    ("width", Json.num 1900), ("height", Json.num 1200)])
  rw [show stringify (Json.obj [("lines", Json.arr []), ("width", Json.num 1900),
    ("height", Json.num 1200)]) = emptyBuf (1900, 1200) from rfl, heq, hp] at hbig
  simp at hbig

/-- C8: deleting on a single-page store is a no-op; on a larger store the
page at currentPage is removed, and currentPage decrements exactly when
the removed page was the last index, otherwise keeps its value. -/
theorem c8_deletePage_floor (s : EngineState) :
    (s.pages.length = 1 → deleteCurrentPage s = s) ∧
    (2 ≤ s.pages.length → s.currentPage < s.pages.length →
      (deleteCurrentPage s).pages = s.pages.eraseIdx s.currentPage ∧
      (deleteCurrentPage s).pages.length = s.pages.length - 1 ∧
      (s.currentPage = s.pages.length - 1 →
        (deleteCurrentPage s).currentPage = s.currentPage - 1) ∧
      (s.currentPage < s.pages.length - 1 →
        (deleteCurrentPage s).currentPage = s.currentPage)) := by
  constructor
  · intro h1
    unfold deleteCurrentPage
    rw [if_pos (by omega)]
  · intro h2 hc
    have hlen : (s.pages.eraseIdx s.currentPage).length = s.pages.length - 1 := by
      rw [List.length_eraseIdx]
      simp [hc]
    unfold deleteCurrentPage
    rw [if_neg (by omega)]
    refine ⟨rfl, hlen, ?_, ?_⟩
    · intro hlast
      show (if (s.pages.eraseIdx s.currentPage).length ≤ s.currentPage then
        (s.pages.eraseIdx s.currentPage).length - 1 else s.currentPage) = s.currentPage - 1
      rw [hlen, if_pos (by omega)]
      omega
    · intro hmid
      show (if (s.pages.eraseIdx s.currentPage).length ≤ s.currentPage then
        (s.pages.eraseIdx s.currentPage).length - 1 else s.currentPage) = s.currentPage
      rw [hlen, if_neg (by omega)]

/-- Witness for C8 on a concrete two-page store with the last page
active: deletion keeps one page and moves to index 0. -/
theorem c8_deletePage_floor_witness :
    (deleteCurrentPage ⟨["a", "b"], 1, ⟨"x", []⟩, "m", none⟩).pages =
      (["a", "b"].eraseIdx 1 : List String) ∧
    (deleteCurrentPage (⟨["a", "b"], 1, ⟨"x", []⟩, "m", none⟩ : EngineState)).currentPage =
      0 :=
  ⟨((c8_deletePage_floor ⟨["a", "b"], 1, ⟨"x", []⟩, "m", none⟩).2
      (by decide) (by decide)).1,
   ((c8_deletePage_floor ⟨["a", "b"], 1, ⟨"x", []⟩, "m", none⟩).2
      (by decide) (by decide)).2.2.1 (by decide)⟩


/-- C2 counterexample: from the three-page store below with currentPage 0,
`addNewPage` appends the new page at index 3 but moves `currentPage` to 1,
which is not the new last index. -/
theorem c2_addPage_counterexample :
    (addNewPage (1900, 1200) (loadNote (1900, 1200) "[\"a\",\"b\",\"c\"]")).currentPage = 1 ∧
    (addNewPage (1900, 1200) (loadNote (1900, 1200) "[\"a\",\"b\",\"c\"]")).pages.length = 4 ∧
    (1 : Nat) ≠ 4 - 1 := by
  refine ⟨rfl, rfl, by decide⟩

/-- C2 (amended): at 50 or more pages `addNewPage` changes nothing except
recording the capacity error; below 50 it flushes the active page,
appends one canonical empty-buffer page, and increments `currentPage` by
one — which is the new last index exactly when the active page was the
last.  Called 50 times from a one-page store it succeeds 49 times
(reaching 50 pages, no error) and the 50th call leaves pages and
currentPage unchanged, recording the capacity error. -/
theorem c2_addPage_behavior (dims : Int × Int) (s : EngineState) :
    (50 ≤ s.pages.length →
      addNewPage dims s = { s with error := some "Maximum 50 pages allowed per note" }) ∧
    (s.pages.length < 50 →
      (addNewPage dims s).pages =
        (s.pages.set s.currentPage (optimizeCanvasData dims s.canvas.data))
          ++ [emptyBuf dims] ∧
      (addNewPage dims s).currentPage = s.currentPage + 1 ∧
      (addNewPage dims s).pages.length = s.pages.length + 1 ∧
      (s.currentPage = s.pages.length - 1 → 0 < s.pages.length →
        (addNewPage dims s).currentPage = (addNewPage dims s).pages.length - 1)) ∧
    ((addNewPage dims)^[49] (loadNote dims "")).pages.length = 50 ∧
    ((addNewPage dims)^[49] (loadNote dims "")).error = none ∧
    ((addNewPage dims)^[50] (loadNote dims "")).pages =
      ((addNewPage dims)^[49] (loadNote dims "")).pages ∧
    ((addNewPage dims)^[50] (loadNote dims "")).currentPage =
      ((addNewPage dims)^[49] (loadNote dims "")).currentPage ∧
    ((addNewPage dims)^[50] (loadNote dims "")).error =
      some "Maximum 50 pages allowed per note" := by
  have hload : (loadNote dims "").pages.length = 1 ∧
      (loadNote dims "").currentPage = 0 ∧ (loadNote dims "").error = none := by
    unfold loadNote
    rw [if_pos rfl]
    exact ⟨rfl, rfl, rfl⟩
  have h49 := addNewPage_iter_fromOne dims (loadNote dims "")
    hload.1 hload.2.1 hload.2.2 49 (by omega)
  have h50step : (addNewPage dims)^[50] (loadNote dims "") =
      addNewPage dims ((addNewPage dims)^[49] (loadNote dims "")) :=
    Function.iterate_succ_apply' (addNewPage dims) 49 (loadNote dims "")
  have hcap : addNewPage dims ((addNewPage dims)^[49] (loadNote dims "")) =
      { (addNewPage dims)^[49] (loadNote dims "") with
        error := some "Maximum 50 pages allowed per note" } := by
    have h50 := h49.1
    revert h50
    generalize (addNewPage dims)^[49] (loadNote dims "") = t
    intro h50
    unfold addNewPage
    rw [if_pos (by omega)]
  refine ⟨?_, ?_, h49.1, h49.2.2, ?_, ?_, ?_⟩
  · intro hge
    unfold addNewPage
    rw [if_pos hge]
  · intro hlt
    have hpages : (addNewPage dims s).pages =
        (s.pages.set s.currentPage (optimizeCanvasData dims s.canvas.data))
          ++ [emptyBuf dims] := by
      unfold addNewPage
      rw [if_neg (by omega)]
    have hcur : (addNewPage dims s).currentPage = s.currentPage + 1 := by
      unfold addNewPage
      rw [if_neg (by omega)]
    have hlen : (addNewPage dims s).pages.length = s.pages.length + 1 := by
      rw [hpages]
      simp [List.length_append, List.length_set]
    exact ⟨hpages, hcur, hlen, fun hlast hpos => by rw [hcur, hlen, hlast]; omega⟩
  · rw [h50step, hcap]
  · rw [h50step, hcap]
  · rw [h50step, hcap]

/-- Witness for C2 on the fresh one-page store: length 1 is below the cap
and `addNewPage` moves `currentPage` from 0 to 1. -/
theorem c2_addPage_behavior_witness :
    (loadNote (1900, 1200) "").pages.length < 50 ∧
    (addNewPage (1900, 1200) (loadNote (1900, 1200) "")).currentPage =
      (loadNote (1900, 1200) "").currentPage + 1 :=
  ⟨by decide,
   ((c2_addPage_behavior (1900, 1200) (loadNote (1900, 1200) "")).2.1 (by decide)).2.1⟩


/-- C3 counterexample: binding identical data twice does NOT always
trigger the clear/load sequence only once.  With d the two-character
string consisting of two quote characters (explicitly excluded by the
guard of the effect), the first call clears and sets lastLoadedData to the
EMPTY_PAGE marker, which never equals d — so the second call clears the
live surface again: two clear events. -/
theorem c3_bind_counterexample :
    ((bindActivePage (1900, 1200) "\"\""
        (bindActivePage (1900, 1200) "\"\"" ⟨emptyBuf (1900, 1200), []⟩ "INITIAL_LOAD").1
        (bindActivePage (1900, 1200) "\"\"" ⟨emptyBuf (1900, 1200), []⟩ "INITIAL_LOAD").2).1).events =
      [CEvent.clear, CEvent.clear] := by
  rfl

/-- C3 (amended): for page data that parses to a JSON object with a
`lines` array (every buffer the app itself stores), binding twice in a
row with identical data triggers the clear/load sequence at most once:
the second call returns exactly the result of the first call, because after
the first call lastLoadedData equals the data.  (The unrestricted claim
fails for blank, malformed, `""`-literal or `[]`-literal data, whose
binding sets lastLoadedData to the EMPTY_PAGE marker and therefore clears
again on every call, as the counterexample shows.) -/
theorem c3_bind_no_redundant_reload (dims : Int × Int) (d : String) (c : Canvas)
    (last : String) (kvs : List (String × Json)) (ls : List Json)
    (hd : d = stringify (Json.obj kvs))
    (hl : lookupKey kvs "lines" = some (Json.arr ls)) :
    bindActivePage dims d (bindActivePage dims d c last).1
      (bindActivePage dims d c last).2 = bindActivePage dims d c last := by
  by_cases he : d = last
  · have hfst : bindActivePage dims d c last = (c, last) := by
      unfold bindActivePage
      rw [if_pos he]
    rw [hfst]
    unfold bindActivePage
    rw [if_pos he]
  · rw [bindActivePage_loads dims c last hd hl he]
    unfold bindActivePage
    rw [if_pos rfl]

/-- Witness for C3: binding the canonical empty buffer twice from a fresh
surface leaves the result of the first call unchanged. -/
theorem c3_bind_no_redundant_reload_witness :
    bindActivePage (1900, 1200) (emptyBuf (1900, 1200))
        (bindActivePage (1900, 1200) (emptyBuf (1900, 1200))
          ⟨emptyBuf (1900, 1200), []⟩ "INITIAL_LOAD").1
        (bindActivePage (1900, 1200) (emptyBuf (1900, 1200))
          ⟨emptyBuf (1900, 1200), []⟩ "INITIAL_LOAD").2 =
      bindActivePage (1900, 1200) (emptyBuf (1900, 1200))
        ⟨emptyBuf (1900, 1200), []⟩ "INITIAL_LOAD" :=
  c3_bind_no_redundant_reload (1900, 1200) (emptyBuf (1900, 1200))
    ⟨emptyBuf (1900, 1200), []⟩ "INITIAL_LOAD"
    [("lines", Json.arr []), ("width", Json.num 1900), ("height", Json.num 1200)]
    [] rfl rfl


/-- C7: `goToPage` is a no-op at the current index or out of bounds;
otherwise it flushes the optimized live buffer into the old slot, clears
the surface, switches the index and forces a rebind.  Consequently, from
page 0 of a two-page store with unsaved live strokes X that contain at
least one surviving stroke, running goToPage 1 and goToPage 0 (the bind
effect firing after each) leaves optimize X as the page-0 buffer — not an
empty buffer — and rebinds it onto the surface. -/
theorem c7_goToPage_flush_ordering (dims : Int × Int) :
    (∀ s i, (i = s.currentPage ∨ s.pages.length ≤ i) → goToPage dims i s = s) ∧
    (∀ s i, i ≠ s.currentPage → i < s.pages.length →
      goToPage dims i s = { s with
        pages := s.pages.set s.currentPage (optimizeCanvasData dims s.canvas.data),
        canvas := s.canvas.clearOp dims,
        currentPage := i,
        lastLoadedData := "PAGE_CHANGED" }) ∧
    (∀ P0 P1 X : String, ∀ ev : List CEvent, ∀ last : String, ∀ err : Option String,
      ∀ kvs : List (String × Json), ∀ ls : List Json,
      parseJson X = some (Json.obj kvs) →
      lookupKey kvs "lines" = some (Json.arr ls) →
      ls.filter keepLine ≠ [] →
      (bindEffect dims (goToPage dims 0 (bindEffect dims (goToPage dims 1
          (⟨[P0, P1], 0, ⟨X, ev⟩, last, err⟩ : EngineState))))).pages.getD 0 "" =
        optimizeCanvasData dims X ∧
      (bindEffect dims (goToPage dims 0 (bindEffect dims (goToPage dims 1
          (⟨[P0, P1], 0, ⟨X, ev⟩, last, err⟩ : EngineState))))).canvas.data =
        optimizeCanvasData dims X ∧
      optimizeCanvasData dims X ≠ emptyBuf dims) := by
  refine ⟨?_, ?_, ?_⟩
  · intro s i h
    unfold goToPage
    rw [if_pos h]
  · intro s i h1 h2
    unfold goToPage
    rw [if_neg (by push_neg; exact ⟨h1, by omega⟩)]
  · intro P0 P1 X ev last err kvs ls hp hl hf
    obtain ⟨kvs2, ls2, he2, hl2, _⟩ := optimize_spec dims X
    have hg1 : goToPage dims 1 (⟨[P0, P1], 0, ⟨X, ev⟩, last, err⟩ : EngineState) =
        ⟨[optimizeCanvasData dims X, P1], 1,
          Canvas.clearOp dims ⟨X, ev⟩, "PAGE_CHANGED", err⟩ := by
      unfold goToPage
      rw [if_neg (by simp)]
      rfl
    have hs1 : bindEffect dims (⟨[optimizeCanvasData dims X, P1], 1,
        Canvas.clearOp dims ⟨X, ev⟩, "PAGE_CHANGED", err⟩ : EngineState) =
        ⟨[optimizeCanvasData dims X, P1], 1,
          (bindActivePage dims P1 (Canvas.clearOp dims ⟨X, ev⟩) "PAGE_CHANGED").1,
          (bindActivePage dims P1 (Canvas.clearOp dims ⟨X, ev⟩) "PAGE_CHANGED").2,
          err⟩ := by
      unfold bindEffect
      rw [if_neg (by simp), if_neg (by simp)]
      rfl
    have hg0 : ∀ (c1 : Canvas) (l2 : String),
        goToPage dims 0 (⟨[optimizeCanvasData dims X, P1], 1, c1, l2, err⟩ :
          EngineState) =
        ⟨[optimizeCanvasData dims X, optimizeCanvasData dims c1.data], 0,
          c1.clearOp dims, "PAGE_CHANGED", err⟩ := by
      intro c1 l2
      unfold goToPage
      rw [if_neg (by simp)]
      rfl
    have hb2 : ∀ (Y : String) (c2 : Canvas),
        bindEffect dims (⟨[optimizeCanvasData dims X, Y], 0, c2, "PAGE_CHANGED", err⟩ :
          EngineState) =
        ⟨[optimizeCanvasData dims X, Y], 0,
          (c2.clearOp dims).loadOp (optimizeCanvasData dims X),
          optimizeCanvasData dims X, err⟩ := by
      intro Y c2
      unfold bindEffect
      rw [if_neg (by simp), if_neg (by simp)]
      have hload := bindActivePage_loads dims c2 "PAGE_CHANGED" he2 hl2
        (optimize_ne_of_head dims X (by decide))
      show (⟨[optimizeCanvasData dims X, Y], 0, (bindActivePage dims
        (([optimizeCanvasData dims X, Y].getD 0 "")) c2 "PAGE_CHANGED").1,
        (bindActivePage dims (([optimizeCanvasData dims X, Y].getD 0 "")) c2
          "PAGE_CHANGED").2, err⟩ : EngineState) = _
      rw [show ([optimizeCanvasData dims X, Y].getD 0 "") =
        optimizeCanvasData dims X from rfl, hload]
    rw [hg1, hs1, hg0 _ _, hb2 _ _]
    exact ⟨rfl, rfl, optimize_ne_emptyBuf_of_strokes dims hp hl hf⟩

/-- Witness for C7 at a concrete two-page store whose live surface holds
a one-stroke buffer. -/
theorem c7_goToPage_flush_ordering_witness :
    (bindEffect (1900, 1200) (goToPage (1900, 1200) 0 (bindEffect (1900, 1200)
        (goToPage (1900, 1200) 1 (⟨["p0", "p1"], 0,
          ⟨"\x7b\"lines\":[\x7b\"points\":[\x7b\"x\":2,\"y\":3\x7d]\x7d],\"width\":100,\"height\":100\x7d", []⟩,
          "INITIAL_LOAD", none⟩ : EngineState))))).pages.getD 0 "" =
      optimizeCanvasData (1900, 1200)
        "\x7b\"lines\":[\x7b\"points\":[\x7b\"x\":2,\"y\":3\x7d]\x7d],\"width\":100,\"height\":100\x7d" ∧
    (bindEffect (1900, 1200) (goToPage (1900, 1200) 0 (bindEffect (1900, 1200)
        (goToPage (1900, 1200) 1 (⟨["p0", "p1"], 0,
          ⟨"\x7b\"lines\":[\x7b\"points\":[\x7b\"x\":2,\"y\":3\x7d]\x7d],\"width\":100,\"height\":100\x7d", []⟩,
          "INITIAL_LOAD", none⟩ : EngineState))))).canvas.data =
      optimizeCanvasData (1900, 1200)
        "\x7b\"lines\":[\x7b\"points\":[\x7b\"x\":2,\"y\":3\x7d]\x7d],\"width\":100,\"height\":100\x7d" ∧
    optimizeCanvasData (1900, 1200)
        "\x7b\"lines\":[\x7b\"points\":[\x7b\"x\":2,\"y\":3\x7d]\x7d],\"width\":100,\"height\":100\x7d" ≠
      emptyBuf (1900, 1200) :=
  (c7_goToPage_flush_ordering (1900, 1200)).2.2 "p0" "p1"
    "\x7b\"lines\":[\x7b\"points\":[\x7b\"x\":2,\"y\":3\x7d]\x7d],\"width\":100,\"height\":100\x7d"
    [] "INITIAL_LOAD" none
    [("lines", Json.arr [Json.obj [("points",
        Json.arr [Json.obj [("x", Json.num 2), ("y", Json.num 3)]])]]),
      ("width", Json.num 100), ("height", Json.num 100)]
    [Json.obj [("points", Json.arr [Json.obj [("x", Json.num 2), ("y", Json.num 3)]])]]
    rfl rfl
    (by
      intro h
      rw [show List.filter keepLine
          [Json.obj [("points", Json.arr [Json.obj [("x", Json.num 2),
            ("y", Json.num 3)]])]] =
          [Json.obj [("points", Json.arr [Json.obj [("x", Json.num 2),
            ("y", Json.num 3)]])]] from rfl] at h
      exact List.noConfusion h)


/-- C9 counterexample: loading a 51-element page array is reachable and
yields 51 pages, violating the claimed upper bound of 50. -/
theorem c9_page_invariant_counterexample :
    Reachable (1900, 1200) (loadNote (1900, 1200)
      (stringify (Json.arr (List.replicate 51 (Json.str "x"))))) ∧
    (loadNote (1900, 1200)
      (stringify (Json.arr (List.replicate 51 (Json.str "x"))))).pages.length = 51 ∧
    ¬ (loadNote (1900, 1200)
      (stringify (Json.arr (List.replicate 51 (Json.str "x"))))).pages.length ≤ 50 := by
  have hp := parse_stringify (Json.arr (Json.str "x" :: List.replicate 50 (Json.str "x")))
  have hlen : (loadNote (1900, 1200)
      (stringify (Json.arr (List.replicate 51 (Json.str "x"))))).pages.length = 51 := by
    unfold loadNote
    rw [if_neg (stringify_ne_empty _)]
    rw [show List.replicate 51 (Json.str "x") =
      Json.str "x" :: List.replicate 50 (Json.str "x") from rfl]
    simp only [hp]
    simp only [List.length_cons, List.length_map, List.length_replicate]
  exact ⟨Reachable.load _, hlen, by omega⟩

/-- C9 (amended): in every state reachable from a load whose parsed page
array has at most 50 elements — in particular any drawingData the app
itself saved — the page list has between 1 and 50 pages and currentPage
is a valid index.  (An unbounded load can exceed 50 pages, as the
counterexample shows; no operation afterwards ever violates 1 ≤ length
or index validity, and addNewPage refuses to grow past 50.) -/
theorem c9_page_invariant (dims : Int × Int) (s : EngineState)
    (hr : ReachableBounded dims s) :
    1 ≤ s.pages.length ∧ s.pages.length ≤ 50 ∧
    s.currentPage < s.pages.length := by
  induction hr with
  | load d h => exact loadNote_inv dims d h
  | step hr hstep ih => exact step_preserves_inv dims hstep ih.1 ih.2.1 ih.2.2

/-- Witness for C9 at the fresh one-page load. -/
theorem c9_page_invariant_witness :
    1 ≤ (loadNote (1900, 1200) "").pages.length ∧
    (loadNote (1900, 1200) "").pages.length ≤ 50 ∧
    (loadNote (1900, 1200) "").currentPage < (loadNote (1900, 1200) "").pages.length :=
  c9_page_invariant (1900, 1200) (loadNote (1900, 1200) "")
    (ReachableBounded.load "" (fun xs hxs => by
      rw [show parseJson "" = none from rfl] at hxs
      exact Option.noConfusion hxs))


/-- C10 (round-trip; `toArray` modelled from spec section 4.2): for a
store with pages A, B, C, the active page 0 live on the surface as A,
loading the saved drawingData back and taking `toArray` yields
optimize A, optimize B, optimize C — `handleSave` optimizes the flushed
active page, `loadNote` parses the array back verbatim, and `toArray`
optimizes every page, idempotence collapsing the double optimize. -/
theorem c10_save_load_roundtrip (dims : Int × Int) (A B C : String)
    (s : EngineState) (hp : s.pages = [A, B, C]) (hc : s.currentPage = 0)
    (hx : s.canvas.data = A) :
    toArray dims (loadNote dims (handleSave dims s)) =
      [optimizeCanvasData dims A, optimizeCanvasData dims B,
       optimizeCanvasData dims C] := by
  have hsave : handleSave dims s =
      stringify (Json.arr [Json.str (optimizeCanvasData dims A), Json.str B,
        Json.str C]) := by
    unfold handleSave
    rw [hp, hc, hx]
    rfl
  have hparse := parse_stringify (Json.arr [Json.str (optimizeCanvasData dims A),
    Json.str B, Json.str C])
  rw [hsave]
  unfold loadNote
  rw [if_neg (stringify_ne_empty _)]
  simp only [hparse]
  unfold toArray
  simp [asPageString, optimize_idem]

/-- Witness for C10 on a concrete three-page store. -/
theorem c10_save_load_roundtrip_witness :
    toArray (1900, 1200) (loadNote (1900, 1200) (handleSave (1900, 1200)
      ⟨["a", "b", "c"], 0, ⟨"a", []⟩, "m", none⟩)) =
      [optimizeCanvasData (1900, 1200) "a", optimizeCanvasData (1900, 1200) "b",
       optimizeCanvasData (1900, 1200) "c"] :=
  c10_save_load_roundtrip (1900, 1200) "a" "b" "c"
    ⟨["a", "b", "c"], 0, ⟨"a", []⟩, "m", none⟩ rfl rfl rfl

end ThoughtCloud
